import Mathlib

/-!
Shallow embedding of the TradingEngine execution core
(`src/ExecutionSystem/include/*.hpp`) and proofs about it.

Prices, quantities and positions are C++ `double`s in the source; they are
embedded as rationals (`ℚ`), which represent every concrete value appearing
in the development exactly and keep all comparisons decidable.  Timestamps
are `std::chrono::steady_clock` time points compared at millisecond
granularity in the source; they are embedded as integers counting
milliseconds.
-/

namespace quant

/-! ### Types.hpp -/

/-- Embeds `enum class OrderState` from `Types.hpp`. -/
inductive OrderState
  | New
  | PendingNew
  | Filled
  | Canceled
  | Rejected
deriving DecidableEq

/-- Embeds `enum class OrderType` from `Types.hpp`. -/
inductive OrderType
  | Limit
  | Market
  | IOC
  | FOK
deriving DecidableEq

/-- Embeds `enum class Side` from `Types.hpp`. -/
inductive Side
  | Buy
  | Sell
deriving DecidableEq

/-- Embeds `enum class ExecType` from `Types.hpp`. -/
inductive ExecType
  | New
  | PartialFill
  | Fill
  | Canceled
  | Rejected
  | PendingCancel
  | PendingNew
deriving DecidableEq

/-! ### OrderBook.hpp

`std::map<double,double>` is embedded as an association list with unique
keys; `updateBid`/`updateAsk` keep keys unique by erasing the key before
inserting, exactly as `bids_[price] = quantity` overwrites. The best bid is
the maximum key (`rbegin()`), the best ask the minimum key (`begin()`). -/

/-- One side of the book: a finite map price ↦ quantity. -/
abbrev BookSide := List (ℚ × ℚ)

/-- Lookup of a price level (`bids_.find(price)`). -/
def sideLookup (s : BookSide) (price : ℚ) : Option ℚ :=
  (s.find? (fun lv => lv.1 = price)).map Prod.snd

/-- Embeds `bids_.erase(price)`. -/
def sideErase (s : BookSide) (price : ℚ) : BookSide :=
  s.filter (fun lv => lv.1 ≠ price)

/-- Embeds `bids_[price] = quantity` (insert or overwrite). -/
def sideSet (s : BookSide) (price qty : ℚ) : BookSide :=
  (price, qty) :: sideErase s price

/-- Maximum key of a side (`rbegin()->first`); 0 on an empty side. -/
def sideMaxKey : BookSide → ℚ
  | [] => 0
  | lv :: rest => (rest.map Prod.fst).foldl max lv.1

/-- Minimum key of a side (`begin()->first`); 0 on an empty side. -/
def sideMinKey : BookSide → ℚ
  | [] => 0
  | lv :: rest => (rest.map Prod.fst).foldl min lv.1

/-- Embeds `class OrderBook` state. -/
structure OrderBook where
  bids : BookSide
  asks : BookSide
deriving DecidableEq

/-- Embeds `OrderBook::updateBid`. -/
def updateBid (b : OrderBook) (price quantity : ℚ) : OrderBook :=
  if quantity = 0 then
    { b with bids := sideErase b.bids price }
  else
    { b with bids := sideSet b.bids price quantity }

/-- Embeds `OrderBook::updateAsk`. -/
def updateAsk (b : OrderBook) (price quantity : ℚ) : OrderBook :=
  if quantity = 0 then
    { b with asks := sideErase b.asks price }
  else
    { b with asks := sideSet b.asks price quantity }

/-- Embeds `OrderBook::getBestBid`: 0.0 on empty side, else highest price. -/
def getBestBid (b : OrderBook) : ℚ :=
  sideMaxKey b.bids

/-- Embeds `OrderBook::getBestAsk`: 0.0 on empty side, else lowest price. -/
def getBestAsk (b : OrderBook) : ℚ :=
  sideMinKey b.asks

/-- Embeds `OrderBook::getMidPrice`. -/
def getMidPrice (b : OrderBook) : ℚ :=
  let bb := getBestBid b
  let ba := getBestAsk b
  if bb = 0 ∨ ba = 0 then 0 else (bb + ba) / 2

/-- The empty book (fresh `OrderBook` constructor). -/
def OrderBook.empty : OrderBook := ⟨[], []⟩

/-! Helper lemmas about sides. -/

theorem le_foldl_max_init (l : List ℚ) (a : ℚ) : a ≤ l.foldl max a := by
  induction l generalizing a with
  | nil => exact le_rfl
  | cons y ys ih => exact le_trans (le_max_left a y) (ih (max a y))

theorem le_foldl_max_of_mem {l : List ℚ} {x : ℚ} (hx : x ∈ l) (a : ℚ) :
    x ≤ l.foldl max a := by
  induction l generalizing a with
  | nil => cases hx
  | cons y ys ih =>
      rcases List.mem_cons.mp hx with h | h
      · subst h
        exact le_trans (le_max_right a x) (le_foldl_max_init ys (max a x))
      · exact ih h (max a y)

theorem sideMaxKey_ge_of_mem {s : BookSide} {p q : ℚ} (h : (p, q) ∈ s) :
    p ≤ sideMaxKey s := by
  cases s with
  | nil => cases h
  | cons lv rest =>
      rcases List.mem_cons.mp h with h | h
      · rw [show p = lv.1 by rw [← h]]
        exact le_foldl_max_init _ _
      · exact le_foldl_max_of_mem (List.mem_map_of_mem Prod.fst h) _

theorem sideLookup_sideSet_self (s : BookSide) (p q : ℚ) :
    sideLookup (sideSet s p q) p = some q := by
  simp [sideLookup, sideSet, List.find?]

theorem sideLookup_sideErase_self (s : BookSide) (p : ℚ) :
    sideLookup (sideErase s p) p = none := by
  have h : (sideErase s p).find? (fun lv => lv.1 = p) = none := by
    rw [List.find?_eq_none]
    intro lv hlv
    have h2 := List.of_mem_filter hlv
    simpa using h2
  simp [sideLookup, h]

/-- Book of scenario S2: `update_bid(100,5)`, `update_bid(101,3)`, `update_ask(102,4)`. -/
def s2Book : OrderBook :=
  updateAsk (updateBid (updateBid OrderBook.empty 100 5) 101 3) 102 4

/-- A book whose bid side is non-empty but holds only the price level 0. -/
def zeroBidBook : OrderBook :=
  updateAsk (updateBid OrderBook.empty 0 1) 102 4

/-- C5: `update_bid(p, 0)` removes `p` from the bid side; `update_bid(p, q)` with
`q > 0` maps `p` to `q` on the bid side and leaves `best_bid() ≥ p`; symmetrically
`update_ask` removes on quantity 0 and creates or overwrites on positive quantity. -/
theorem orderBook_update_level_spec (b : OrderBook) (p q : ℚ) :
    sideLookup (updateBid b p 0).bids p = none ∧
    (0 < q → sideLookup (updateBid b p q).bids p = some q ∧
      p ≤ getBestBid (updateBid b p q)) ∧
    sideLookup (updateAsk b p 0).asks p = none ∧
    (0 < q → sideLookup (updateAsk b p q).asks p = some q) := by
  refine ⟨?_, fun hq => ⟨?_, ?_⟩, ?_, fun hq => ?_⟩
  · simp only [updateBid, if_pos rfl]
    exact sideLookup_sideErase_self b.bids p
  · simp only [updateBid, if_neg (ne_of_gt hq)]
    exact sideLookup_sideSet_self b.bids p q
  · simp only [updateBid, if_neg (ne_of_gt hq), getBestBid]
    exact sideMaxKey_ge_of_mem (List.mem_cons_self _ _)
  · simp only [updateAsk, if_pos rfl]
    exact sideLookup_sideErase_self b.asks p
  · simp only [updateAsk, if_neg (ne_of_gt hq)]
    exact sideLookup_sideSet_self b.asks p q

/-- C5 witness: the specification evaluated at `p = 100`, `q = 5` on the empty book. -/
theorem orderBook_update_level_spec_witness :
    (0:ℚ) < 5 ∧
    (sideLookup (updateBid OrderBook.empty 100 0).bids 100 = none ∧
     sideLookup (updateBid OrderBook.empty 100 5).bids 100 = some 5 ∧
     (100:ℚ) ≤ getBestBid (updateBid OrderBook.empty 100 5)) :=
  ⟨by norm_num, (orderBook_update_level_spec OrderBook.empty 100 5).1,
    ((orderBook_update_level_spec OrderBook.empty 100 5).2.1 (by norm_num)).1,
    ((orderBook_update_level_spec OrderBook.empty 100 5).2.1 (by norm_num)).2⟩

/-- C6 counterexample: on a book whose bid side is non-empty but whose best bid is
the price 0 (one level at price 0), `getMidPrice` returns 0 while both sides are
non-empty and `(best_bid + best_ask) / 2 = 51 ≠ 0`; so "mid_price() returns
(best_bid + best_ask) / 2 whenever both sides are non-empty" fails on the code. -/
theorem orderBook_mid_nonempty_counterexample :
    zeroBidBook.bids ≠ [] ∧ zeroBidBook.asks ≠ [] ∧
    getMidPrice zeroBidBook = 0 ∧
    (getBestBid zeroBidBook + getBestAsk zeroBidBook) / 2 = 51 := by
  refine ⟨?_, ?_, ?_, ?_⟩ <;>
    norm_num [zeroBidBook, OrderBook.empty, updateBid, updateAsk, sideSet, sideErase,
      getMidPrice, getBestBid, getBestAsk, sideMaxKey, sideMinKey]

/-- C6 (amended): best bid/ask are 0 on an empty side; `mid_price()` is 0 whenever
either side is empty; and `mid_price() = (best_bid + best_ask) / 2` whenever both
best quotes are nonzero (in particular whenever both sides are non-empty with
nonzero best prices); concretely on scenario S2 the quotes are 101 / 102 / 101.5. -/
theorem orderBook_best_mid_spec (b : OrderBook) :
    (b.bids = [] → getBestBid b = 0) ∧
    (b.asks = [] → getBestAsk b = 0) ∧
    (b.bids = [] ∨ b.asks = [] → getMidPrice b = 0) ∧
    (getBestBid b ≠ 0 → getBestAsk b ≠ 0 →
      getMidPrice b = (getBestBid b + getBestAsk b) / 2) ∧
    (getBestBid s2Book = 101 ∧ getBestAsk s2Book = 102 ∧
      getMidPrice s2Book = 203 / 2 ∧
      getBestBid (updateBid s2Book 101 0) = 100) := by
  refine ⟨?_, ?_, ?_, ?_, ?_, ?_, ?_, ?_⟩
  · intro h; simp [getBestBid, h, sideMaxKey]
  · intro h; simp [getBestAsk, h, sideMinKey]
  · intro h
    rcases h with h | h
    · simp [getMidPrice, getBestBid, h, sideMaxKey]
    · simp [getMidPrice, getBestAsk, h, sideMinKey]
  · intro hb ha
    simp [getMidPrice, hb, ha]
  all_goals
    norm_num [s2Book, OrderBook.empty, updateBid, updateAsk, sideSet, sideErase,
      getMidPrice, getBestBid, getBestAsk, sideMaxKey, sideMinKey]

/-- C6 witness: the amended specification evaluated on the empty book and on S2. -/
theorem orderBook_best_mid_spec_witness :
    (getMidPrice OrderBook.empty = 0) ∧
    (getBestBid s2Book ≠ 0 ∧ getBestAsk s2Book ≠ 0 ∧
      getMidPrice s2Book = (getBestBid s2Book + getBestAsk s2Book) / 2) := by
  have hb : getBestBid s2Book ≠ 0 := by
    norm_num [s2Book, OrderBook.empty, updateBid, updateAsk, sideSet, sideErase,
      getBestBid, sideMaxKey]
  have ha : getBestAsk s2Book ≠ 0 := by
    norm_num [s2Book, OrderBook.empty, updateBid, updateAsk, sideSet, sideErase,
      getBestAsk, sideMinKey]
  exact ⟨(orderBook_best_mid_spec OrderBook.empty).2.2.1 (Or.inl rfl),
    hb, ha, (orderBook_best_mid_spec s2Book).2.2.2.1 hb ha⟩

/-! ### RiskManager.hpp

`checkOrder` returns `bool` in the source, with a distinct logged reason at
each early-return site; the result is embedded as `Approved` / `Rejected
reason`, one reason per return site.  The monotonic clock read
(`steady_clock::now()`, truncated to milliseconds by `duration_cast`) is made
an explicit `now : ℤ` input; all other state is the `RiskManager` record. -/

inductive RiskReason
  | OversizedOrder
  | PositionLimitExceeded
  | PriceOutOfBand
  | RateLimitExceeded
deriving DecidableEq

inductive RiskResult
  | Approved
  | Rejected (reason : RiskReason)
deriving DecidableEq

/-- Embeds `class RiskManager` state (limits are `const` members set in the constructor). -/
structure RiskManager where
  maxOrderSize : ℚ
  maxPosition : ℚ
  maxPriceDeviation : ℚ
  maxOrderRate : ℤ
  currentPosition : ℚ
  lastCheckTime : ℤ
  ordersInWindow : ℤ
deriving DecidableEq

/-- The `RiskManager()` constructor: limits 10 / 100 / 5% / 10 per second,
zero position and counter, window start at construction time `t0`. -/
def RiskManager.init (t0 : ℤ) : RiskManager :=
  { maxOrderSize := 10, maxPosition := 100, maxPriceDeviation := 5 / 100,
    maxOrderRate := 10, currentPosition := 0, lastCheckTime := t0,
    ordersInWindow := 0 }

/-- Projected position if this order fills (`RiskManager::checkOrder`, check 2). -/
def projectedPosition (rm : RiskManager) (side : Side) (quantity : ℚ) : ℚ :=
  match side with
  | Side.Buy => rm.currentPosition + quantity
  | Side.Sell => rm.currentPosition - quantity

/-- Embeds `RiskManager::checkOrder` (the `symbol` argument is unused in the source). -/
def checkOrder (rm : RiskManager) (side : Side) (price quantity currentMarketPrice : ℚ)
    (now : ℤ) : RiskResult × RiskManager :=
  if rm.maxOrderSize < quantity then
    (.Rejected .OversizedOrder, rm)
  else if rm.maxPosition < |projectedPosition rm side quantity| then
    (.Rejected .PositionLimitExceeded, rm)
  else if 0 < currentMarketPrice ∧
      rm.maxPriceDeviation < |price - currentMarketPrice| / currentMarketPrice then
    (.Rejected .PriceOutOfBand, rm)
  else
    let rm1 := if 1000 ≤ now - rm.lastCheckTime then
        { rm with ordersInWindow := 0, lastCheckTime := now }
      else rm
    if rm1.maxOrderRate ≤ rm1.ordersInWindow then
      (.Rejected .RateLimitExceeded, rm1)
    else
      (.Approved, { rm1 with ordersInWindow := rm1.ordersInWindow + 1 })

/-- Embeds `RiskManager::updatePosition`. -/
def updatePosition (rm : RiskManager) (side : Side) (quantity : ℚ) : RiskManager :=
  match side with
  | Side.Buy => { rm with currentPosition := rm.currentPosition + quantity }
  | Side.Sell => { rm with currentPosition := rm.currentPosition - quantity }

/-- C10: `checkOrder` never changes `current_position` (whatever it returns);
`updatePosition` adds the quantity for Buy and subtracts it for Sell. -/
theorem riskManager_position_frame_spec (rm : RiskManager) (side : Side)
    (price quantity currentMarketPrice : ℚ) (now : ℤ) :
    (checkOrder rm side price quantity currentMarketPrice now).2.currentPosition =
      rm.currentPosition ∧
    (updatePosition rm Side.Buy quantity).currentPosition =
      rm.currentPosition + quantity ∧
    (updatePosition rm Side.Sell quantity).currentPosition =
      rm.currentPosition - quantity := by
  refine ⟨?_, rfl, rfl⟩
  simp only [checkOrder]
  split_ifs <;> rfl

/-- C7: for a check that passes the size and position checks and has a positive
reference price, the result is `Rejected PriceOutOfBand` exactly when the relative
deviation exceeds `max_price_deviation`; with the constructor defaults
(`max_price_deviation = 0.05`) and reference 100, price 105.0 is approved
(boundary inclusive) and price 105.01 is rejected as out of band. -/
theorem riskManager_price_band_spec (rm : RiskManager) (side : Side)
    (price quantity currentMarketPrice : ℚ) (now : ℤ)
    (hsz : quantity ≤ rm.maxOrderSize)
    (hpos : |projectedPosition rm side quantity| ≤ rm.maxPosition)
    (href : 0 < currentMarketPrice) :
    ((checkOrder rm side price quantity currentMarketPrice now).1 =
        RiskResult.Rejected RiskReason.PriceOutOfBand ↔
      rm.maxPriceDeviation < |price - currentMarketPrice| / currentMarketPrice) ∧
    (checkOrder (RiskManager.init 0) Side.Buy 105 1 100 0).1 = RiskResult.Approved ∧
    (checkOrder (RiskManager.init 0) Side.Buy (10501 / 100) 1 100 0).1 =
      RiskResult.Rejected RiskReason.PriceOutOfBand := by
  refine ⟨?_, ?_, ?_⟩
  · simp only [checkOrder, if_neg (not_lt.mpr hsz), if_neg (not_lt.mpr hpos)]
    by_cases hband : rm.maxPriceDeviation < |price - currentMarketPrice| / currentMarketPrice
    · rw [if_pos ⟨href, hband⟩]
      simpa using hband
    · rw [if_neg (fun h => hband h.2)]
      constructor
      · intro h
        exfalso
        revert h
        split_ifs <;> simp
      · intro h
        exact absurd h hband
  · norm_num [checkOrder, RiskManager.init, projectedPosition, abs_of_nonneg]
  · norm_num [checkOrder, RiskManager.init, projectedPosition, abs_of_nonneg]

/-- C7 witness: the price-band characterisation evaluated at the constructor
defaults with reference 100 and price 105. -/
theorem riskManager_price_band_spec_witness :
    (1 : ℚ) ≤ (RiskManager.init 0).maxOrderSize ∧
    |projectedPosition (RiskManager.init 0) Side.Buy 1| ≤ (RiskManager.init 0).maxPosition ∧
    (0 : ℚ) < 100 ∧
    (((checkOrder (RiskManager.init 0) Side.Buy 105 1 100 0).1 =
        RiskResult.Rejected RiskReason.PriceOutOfBand ↔
      (RiskManager.init 0).maxPriceDeviation < |105 - (100 : ℚ)| / 100) ∧
    (checkOrder (RiskManager.init 0) Side.Buy 105 1 100 0).1 = RiskResult.Approved ∧
    (checkOrder (RiskManager.init 0) Side.Buy (10501 / 100) 1 100 0).1 =
      RiskResult.Rejected RiskReason.PriceOutOfBand) :=
  ⟨by norm_num [RiskManager.init], by norm_num [RiskManager.init, projectedPosition],
    by norm_num,
    riskManager_price_band_spec (RiskManager.init 0) Side.Buy 105 1 100 0
      (by norm_num [RiskManager.init])
      (by norm_num [RiskManager.init, projectedPosition]) (by norm_num)⟩

/-- One `checkOrder` call: the arguments of `RiskManager::checkOrder`, with the
clock read made explicit (`now`, in milliseconds of the monotonic clock). -/
structure OrderCheckCall where
  side : Side
  price : ℚ
  quantity : ℚ
  currentMarketPrice : ℚ
  now : ℤ
deriving DecidableEq

/-- The call passes the size, position and price-band checks (checks 1–3). -/
def passesStaticChecks (rm : RiskManager) (c : OrderCheckCall) : Prop :=
  c.quantity ≤ rm.maxOrderSize ∧
  |projectedPosition rm c.side c.quantity| ≤ rm.maxPosition ∧
  (0 < c.currentMarketPrice →
    |c.price - c.currentMarketPrice| / c.currentMarketPrice ≤ rm.maxPriceDeviation)

/-- A sequence of `checkOrder` calls, threading the risk state. -/
def runChecks : RiskManager → List OrderCheckCall → List RiskResult × RiskManager
  | rm, [] => ([], rm)
  | rm, c :: cs =>
      let res := checkOrder rm c.side c.price c.quantity c.currentMarketPrice c.now
      let rest := runChecks res.2 cs
      (res.1 :: rest.1, rest.2)

/-- An otherwise-valid call inside the current 1-second window only consults and
bumps the throttle counter. -/
theorem checkOrder_inWindow (rm : RiskManager) (c : OrderCheckCall)
    (hv : passesStaticChecks rm c) (hw : c.now - rm.lastCheckTime < 1000) :
    checkOrder rm c.side c.price c.quantity c.currentMarketPrice c.now =
      (if rm.maxOrderRate ≤ rm.ordersInWindow then
        (RiskResult.Rejected RiskReason.RateLimitExceeded, rm)
      else
        (RiskResult.Approved, { rm with ordersInWindow := rm.ordersInWindow + 1 })) := by
  obtain ⟨h1, h2, h3⟩ := hv
  rw [checkOrder, if_neg (not_lt.mpr h1), if_neg (not_lt.mpr h2),
    if_neg (fun h => absurd (h3 h.1) (not_le.mpr h.2))]
  simp only [if_neg (not_le.mpr hw)]

/-- An otherwise-valid call whose clock has advanced at least one second past the
window start resets the window and is approved (provided the rate limit is
positive), leaving the counter at 1 and the window start at `now`. -/
theorem checkOrder_reset (rm : RiskManager) (c : OrderCheckCall)
    (hv : passesStaticChecks rm c) (hw : 1000 ≤ c.now - rm.lastCheckTime)
    (hrate : 0 < rm.maxOrderRate) :
    checkOrder rm c.side c.price c.quantity c.currentMarketPrice c.now =
      (RiskResult.Approved,
        { rm with ordersInWindow := 1, lastCheckTime := c.now }) := by
  obtain ⟨h1, h2, h3⟩ := hv
  rw [checkOrder, if_neg (not_lt.mpr h1), if_neg (not_lt.mpr h2),
    if_neg (fun h => absurd (h3 h.1) (not_le.mpr h.2))]
  simp only [if_pos hw]
  rw [if_neg (by simpa using not_le.mpr hrate)]
  norm_num

/-- Since `checkOrder` changes only the throttle fields, static validity transfers
to any state that differs from `rm` only in `ordersInWindow`. -/
theorem passesStaticChecks_of_window_change (rm : RiskManager) (c : OrderCheckCall)
    (k : ℤ) (hv : passesStaticChecks rm c) :
    passesStaticChecks { rm with ordersInWindow := k } c := hv

/-- Expected results of `n` otherwise-valid in-window calls starting from a
throttle counter `count`: approvals while `count < maxRate`, then rejections. -/
def expectedRateResults : ℤ → ℤ → ℕ → List RiskResult
  | _, _, 0 => []
  | count, maxRate, n + 1 =>
      if count < maxRate then
        RiskResult.Approved :: expectedRateResults (count + 1) maxRate n
      else
        RiskResult.Rejected RiskReason.RateLimitExceeded ::
          expectedRateResults count maxRate n

/-- Results of a run of otherwise-valid calls inside one window: approvals while
the counter is below the rate limit, then rejections; the counter saturates at
the limit and window start and position are untouched. -/
theorem runChecks_inWindow (cs : List OrderCheckCall) : ∀ rm : RiskManager,
    (∀ c ∈ cs, passesStaticChecks rm c ∧ c.now - rm.lastCheckTime < 1000) →
    rm.ordersInWindow ≤ rm.maxOrderRate →
    (runChecks rm cs).1 =
      expectedRateResults rm.ordersInWindow rm.maxOrderRate cs.length ∧
    (runChecks rm cs).2 =
      { rm with ordersInWindow := min rm.maxOrderRate (rm.ordersInWindow + cs.length) } := by
  induction cs with
  | nil =>
      intro rm _ hle
      refine ⟨rfl, ?_⟩
      have h0 : min rm.maxOrderRate (rm.ordersInWindow + ((0 : ℕ) : ℤ)) =
          rm.ordersInWindow := by
        push_cast
        omega
      simp only [runChecks, List.length_nil, h0]
  | cons c cs ih =>
      intro rm hv hle
      have hc := hv c (List.mem_cons_self c cs)
      have hstep := checkOrder_inWindow rm c hc.1 hc.2
      by_cases hfull : rm.maxOrderRate ≤ rm.ordersInWindow
      · have heq : rm.ordersInWindow = rm.maxOrderRate := le_antisymm hle hfull
        have ih' := ih rm (fun d hd => hv d (List.mem_cons_of_mem c hd)) hle
        refine ⟨?_, ?_⟩
        · simp only [runChecks, hstep, if_pos hfull, List.length_cons,
            expectedRateResults, if_neg (not_lt.mpr hfull)]
          exact congrArg _ ih'.1
        · simp only [runChecks, hstep, if_pos hfull, ih'.2, List.length_cons]
          have harith : min rm.maxOrderRate (rm.ordersInWindow + (cs.length : ℤ)) =
              min rm.maxOrderRate (rm.ordersInWindow + ((cs.length + 1 : ℕ) : ℤ)) := by
            push_cast
            omega
          rw [harith]
      · push_neg at hfull
        have ih' := ih { rm with ordersInWindow := rm.ordersInWindow + 1 }
          (fun d hd => hv d (List.mem_cons_of_mem c hd))
          (by simpa using hfull)
        refine ⟨?_, ?_⟩
        · simp only [runChecks, hstep, if_neg (not_le.mpr hfull), List.length_cons,
            expectedRateResults, if_pos hfull]
          exact congrArg _ ih'.1
        · simp only [runChecks, hstep, if_neg (not_le.mpr hfull), ih'.2,
            List.length_cons]
          have harith : min rm.maxOrderRate (rm.ordersInWindow + 1 + (cs.length : ℤ)) =
              min rm.maxOrderRate (rm.ordersInWindow + ((cs.length + 1 : ℕ) : ℤ)) := by
            push_cast
            omega
          rw [harith]

/-- C8: with `max_order_rate = 10`, a zero counter and eleven otherwise-valid
calls inside the current 1-second window, the first ten are approved (each
bumping the counter, which ends at 10) and the eleventh is rejected with
`RateLimitExceeded`; a further otherwise-valid call whose clock is at least one
second past the window start resets the counter and is approved. -/
theorem riskManager_rate_limit_spec (rm : RiskManager)
    (cs : List OrderCheckCall) (c12 : OrderCheckCall)
    (hrate : rm.maxOrderRate = 10) (hcount : rm.ordersInWindow = 0)
    (hlen : cs.length = 11)
    (hv : ∀ c ∈ cs, passesStaticChecks rm c ∧ c.now - rm.lastCheckTime < 1000)
    (hv12 : passesStaticChecks rm c12) (hw12 : 1000 ≤ c12.now - rm.lastCheckTime) :
    (runChecks rm cs).1 =
      List.replicate 10 RiskResult.Approved ++
        [RiskResult.Rejected RiskReason.RateLimitExceeded] ∧
    (runChecks rm cs).2.ordersInWindow = 10 ∧
    (checkOrder (runChecks rm cs).2 c12.side c12.price c12.quantity
        c12.currentMarketPrice c12.now).1 = RiskResult.Approved := by
  have hrun := runChecks_inWindow cs rm hv (by rw [hrate, hcount]; norm_num)
  have hfinal : (runChecks rm cs).2 =
      { rm with ordersInWindow := 10 } := by
    rw [hrun.2, hrate, hcount, hlen]
    norm_num
  refine ⟨?_, ?_, ?_⟩
  · rw [hrun.1, hcount, hrate, hlen]
    decide
  · rw [hfinal]
  · rw [hfinal, checkOrder_reset { rm with ordersInWindow := 10 } c12
      (passesStaticChecks_of_window_change rm c12 10 hv12)
      (by simpa using hw12) (by rw [show ({ rm with ordersInWindow := 10 } :
        RiskManager).maxOrderRate = rm.maxOrderRate from rfl, hrate]; norm_num)]

/-- A call of scenario S4 at clock time `t`: Buy 1 at 100 against market 100. -/
def rateCall (t : ℤ) : OrderCheckCall :=
  { side := Side.Buy, price := 100, quantity := 1, currentMarketPrice := 100, now := t }

/-- Eleven S4 calls inside one 1-second window (200 ms span). -/
def rateCalls : List OrderCheckCall :=
  [rateCall 0, rateCall 20, rateCall 40, rateCall 60, rateCall 80, rateCall 100,
   rateCall 120, rateCall 140, rateCall 160, rateCall 180, rateCall 200]

theorem rateCall_passes (t : ℤ) :
    passesStaticChecks (RiskManager.init 0) (rateCall t) := by
  refine ⟨by norm_num [RiskManager.init, rateCall], ?_, ?_⟩
  · norm_num [RiskManager.init, rateCall, projectedPosition, abs_of_nonneg]
  · intro _
    norm_num [RiskManager.init, rateCall]

/-- C8 witness: scenario S4 run from the constructor state at clock 0, with the
eleven calls at 0–200 ms and the reset call at 1500 ms. -/
theorem riskManager_rate_limit_spec_witness :
    (runChecks (RiskManager.init 0) rateCalls).1 =
      List.replicate 10 RiskResult.Approved ++
        [RiskResult.Rejected RiskReason.RateLimitExceeded] ∧
    (runChecks (RiskManager.init 0) rateCalls).2.ordersInWindow = 10 ∧
    (checkOrder (runChecks (RiskManager.init 0) rateCalls).2 (rateCall 1500).side
        (rateCall 1500).price (rateCall 1500).quantity
        (rateCall 1500).currentMarketPrice (rateCall 1500).now).1 =
      RiskResult.Approved :=
  riskManager_rate_limit_spec (RiskManager.init 0) rateCalls (rateCall 1500)
    rfl rfl rfl
    (by
      intro c hc
      simp only [rateCalls, List.mem_cons, List.not_mem_nil, or_false] at hc
      rcases hc with rfl | rfl | rfl | rfl | rfl | rfl | rfl | rfl | rfl | rfl | rfl <;>
        exact ⟨rateCall_passes _, by norm_num [rateCall, RiskManager.init]⟩)
    (rateCall_passes 1500)
    (by norm_num [rateCall, RiskManager.init])

/-! ### SymbolManager.hpp

Using integers for symbol ids (`using ℤ = int`, embedded as ℤ).  The
singleton's two maps are embedded as an association list (`symbolToId_`) and
an id-indexed list (`idToSymbol_`). -/

/-- Embeds `class SymbolManager` state. -/
structure SymbolManager where
  nextId : ℤ
  symbolToId : List (String × ℤ)
  idToSymbol : List String
deriving DecidableEq

/-- The private constructor: `nextId_(0)` and empty maps. -/
def SymbolManager.empty : SymbolManager :=
  { nextId := 0, symbolToId := [], idToSymbol := [] }

/-- The registration branch of `SymbolManager::getId`: assign `nextId_`, record
the pair in both maps, bump `nextId_`. -/
def registerNew (m : SymbolManager) (symbol : String) : SymbolManager :=
  { nextId := m.nextId + 1,
    symbolToId := (symbol, m.nextId) :: m.symbolToId,
    idToSymbol := m.idToSymbol ++ [symbol] }

/-- Embeds `SymbolManager::getId`: register or retrieve a symbol id. -/
def getId (m : SymbolManager) (symbol : String) : ℤ × SymbolManager :=
  match m.symbolToId.find? (fun p => p.1 = symbol) with
  | some p => (p.2, m)
  | none => (m.nextId, registerNew m symbol)

/-- Embeds `SymbolManager::getSymbol`: retrieve the string for an id, or `"UNKNOWN"`. -/
def getSymbol (m : SymbolManager) (id : ℤ) : String :=
  if 0 ≤ id ∧ id < (m.idToSymbol.length : ℤ) then
    m.idToSymbol.getD id.toNat "UNKNOWN"
  else "UNKNOWN"

/-- Class invariant of the interner: `nextId_` counts the registered symbols and
`symbolToId_` is inverse to `idToSymbol_`. It holds in the constructed state and
is preserved by `getId` (proved inside the C9 theorem). -/
def SymbolManager.wf (m : SymbolManager) : Prop :=
  m.nextId = (m.idToSymbol.length : ℤ) ∧
  ∀ p ∈ m.symbolToId, 0 ≤ p.2 ∧ p.2 < (m.idToSymbol.length : ℤ) ∧
    m.idToSymbol.getD p.2.toNat "UNKNOWN" = p.1

/-- C9: on every interner state satisfying the class invariant,
`name_of (intern s) = s`; `intern` is idempotent (the second call returns the
same id and does not change the state); an id never registered (ids are assigned
densely from 0, so: negative or `≥ nextId`) maps to `"UNKNOWN"`; and the
invariant holds initially and is preserved by `intern`. -/
theorem getId_found {m : SymbolManager} {s : String} {p : String × ℤ}
    (hfind : m.symbolToId.find? (fun q => q.1 = s) = some p) :
    getId m s = (p.2, m) := by
  rw [getId, hfind]

theorem getId_new {m : SymbolManager} {s : String}
    (hfind : m.symbolToId.find? (fun q => q.1 = s) = none) :
    getId m s = (m.nextId, registerNew m s) := by
  rw [getId, hfind]

theorem symbolManager_round_trip_spec (m : SymbolManager) (s : String)
    (hwf : m.wf) :
    getSymbol (getId m s).2 (getId m s).1 = s ∧
    getId (getId m s).2 s = getId m s ∧
    (∀ id : ℤ, id < 0 ∨ m.nextId ≤ id → getSymbol m id = "UNKNOWN") ∧
    ((getId m s).2).wf ∧
    SymbolManager.empty.wf := by
  obtain ⟨hlen, hinv⟩ := hwf
  have hunreg : ∀ id : ℤ, id < 0 ∨ m.nextId ≤ id →
      getSymbol m id = "UNKNOWN" := by
    intro id hid
    have hcond : ¬ (0 ≤ id ∧ id < (m.idToSymbol.length : ℤ)) := by
      rw [hlen] at hid
      rintro ⟨hc0, hc1⟩
      rcases hid with hid | hid
      · omega
      · omega
    rw [getSymbol, if_neg hcond]
  have hempty : SymbolManager.empty.wf :=
    ⟨rfl, fun p hp => absurd hp (List.not_mem_nil p)⟩
  cases hfind : m.symbolToId.find? (fun q => q.1 = s) with
  | some p =>
      have hg := getId_found hfind
      have hmem : p ∈ m.symbolToId := List.mem_of_find?_eq_some hfind
      have hps : p.1 = s := by simpa using List.find?_some hfind
      obtain ⟨h0, h1, h2⟩ := hinv p hmem
      refine ⟨?_, ?_, hunreg, ?_, hempty⟩
      · rw [hg]
        rw [show ((p.2, m) : ℤ × SymbolManager).2 = m from rfl,
          show ((p.2, m) : ℤ × SymbolManager).1 = p.2 from rfl]
        rw [getSymbol, if_pos ⟨h0, h1⟩, h2, hps]
      · rw [hg]
        exact getId_found hfind
      · rw [hg]
        exact ⟨hlen, hinv⟩
  | none =>
      have hg := getId_new hfind
      have hget : (m.idToSymbol ++ [s]).getD m.idToSymbol.length "UNKNOWN" = s := by
        rw [List.getD_eq_getElem?_getD, List.getElem?_append_right (le_refl _)]
        simp
      have htoNat : m.nextId.toNat = m.idToSymbol.length := by
        rw [hlen]
        simp
      refine ⟨?_, ?_, hunreg, ?_, hempty⟩
      · rw [hg]
        show getSymbol (registerNew m s) m.nextId = s
        rw [getSymbol, if_pos]
        · show (m.idToSymbol ++ [s]).getD m.nextId.toNat "UNKNOWN" = s
          rw [htoNat]
          exact hget
        · show 0 ≤ m.nextId ∧
            m.nextId < ((m.idToSymbol ++ [s]).length : ℤ)
          rw [hlen]
          constructor
          · exact Int.natCast_nonneg _
          · push_cast [List.length_append, List.length_singleton]
            omega
      · rw [hg]
        have hf2 : ((registerNew m s).symbolToId).find? (fun q => q.1 = s) =
            some (s, m.nextId) := by
          show (((s, m.nextId) :: m.symbolToId).find? (fun q => q.1 = s)) =
            some (s, m.nextId)
          simp [List.find?]
        exact getId_found hf2
      · rw [hg]
        refine ⟨?_, ?_⟩
        · show m.nextId + 1 = ((m.idToSymbol ++ [s]).length : ℤ)
          rw [hlen]
          push_cast [List.length_append, List.length_singleton]
          ring
        · intro p hp
          show 0 ≤ p.2 ∧ p.2 < ((m.idToSymbol ++ [s]).length : ℤ) ∧
            (m.idToSymbol ++ [s]).getD p.2.toNat "UNKNOWN" = p.1
          rcases List.mem_cons.mp hp with hp' | hp'
          · rw [hp']
            refine ⟨by rw [hlen]; exact Int.natCast_nonneg _, ?_, ?_⟩
            · rw [hlen]
              push_cast [List.length_append, List.length_singleton]
              omega
            · rw [show ((s, m.nextId) : String × ℤ).2 = m.nextId from rfl,
                htoNat]
              exact hget
          · obtain ⟨h0, h1, h2⟩ := hinv p hp'
            refine ⟨h0, ?_, ?_⟩
            · push_cast [List.length_append, List.length_singleton]
              linarith
            · rw [List.getD_eq_getElem?_getD, List.getElem?_append_left
                (by omega : p.2.toNat < m.idToSymbol.length),
                ← List.getD_eq_getElem?_getD]
              exact h2

/-- C9 witness: the round-trip evaluated on the freshly constructed interner and
the symbol `"BTCUSDT"`. -/
theorem symbolManager_round_trip_spec_witness :
    getSymbol (getId SymbolManager.empty "BTCUSDT").2
        (getId SymbolManager.empty "BTCUSDT").1 = "BTCUSDT" ∧
    getId (getId SymbolManager.empty "BTCUSDT").2 "BTCUSDT" =
      getId SymbolManager.empty "BTCUSDT" ∧
    getSymbol SymbolManager.empty 7 = "UNKNOWN" :=
  ⟨(symbolManager_round_trip_spec SymbolManager.empty "BTCUSDT"
      ⟨rfl, fun p hp => absurd hp (List.not_mem_nil p)⟩).1,
   (symbolManager_round_trip_spec SymbolManager.empty "BTCUSDT"
      ⟨rfl, fun p hp => absurd hp (List.not_mem_nil p)⟩).2.1,
   (symbolManager_round_trip_spec SymbolManager.empty "BTCUSDT"
      ⟨rfl, fun p hp => absurd hp (List.not_mem_nil p)⟩).2.2.1 7
      (Or.inr (by norm_num [SymbolManager.empty]))⟩

/-! ### ExecutionReport.hpp and OrderManager.hpp

The registry `std::unordered_map<long long, Order*>` is embedded as an
association list id ↦ order; pointer mutation through the map becomes
`setOrderIn`.  The `ObjectPool<Order, 100000>` backing store is embedded by
its observable effect on `createOrder`: a free-cell count that makes
`acquire` fail (return `-1`) exactly when the pool is exhausted. -/

/-- Embeds `struct ExecutionReport` (FIX msgType=8). -/
structure ExecutionReport where
  orderId : ℤ
  clientOrderId : String
  execId : String
  symbol : String
  side : Side
  lastQty : ℚ
  lastPrice : ℚ
  leavesQty : ℚ
  cumQty : ℚ
  avgPrice : ℚ
  execType : ExecType
  orderState : OrderState
  text : String
deriving DecidableEq

/-- Embeds `struct Order`. -/
structure Order where
  orderId : ℤ
  symbolId : ℤ
  side : Side
  price : ℚ
  quantity : ℚ
  filledQuantity : ℚ
  state : OrderState
deriving DecidableEq

/-- The `Order(id, symId, s, p, q)` constructor: zero filled, state `New`. -/
def Order.make (id symId : ℤ) (s : Side) (p q : ℚ) : Order :=
  { orderId := id, symbolId := symId, side := s, price := p, quantity := q,
    filledQuantity := 0, state := OrderState.New }

/-- Embeds `class OrderManager` state. -/
structure OrderManager where
  orders : List (ℤ × Order)
  nextOrderId : ℤ
  poolFree : ℕ
deriving DecidableEq

/-- Embeds `OrderManager()` constructor: `nextOrderId_(1)`, empty registry, full pool. -/
def OrderManager.init : OrderManager :=
  { orders := [], nextOrderId := 1, poolFree := 100000 }

/-- Embeds `OrderManager::getOrder`: the registry lookup (`nullptr` ↦ `none`). -/
def getOrder (om : OrderManager) (orderId : ℤ) : Option Order :=
  (om.orders.find? (fun p => p.1 = orderId)).map Prod.snd

/-- In-place mutation of the registry entry for `orderId` (`it->second->…`);
entries with other ids are untouched, and a missing id is a no-op. -/
def setOrderIn (om : OrderManager) (orderId : ℤ) (f : Order → Order) : OrderManager :=
  { om with orders := om.orders.map (fun p => if p.1 = orderId then (p.1, f p.2) else p) }

/-- Embeds `OrderManager::createOrder`: acquire from the pool (`-1` when exhausted),
assign `nextOrderId_++`, insert into the registry. -/
def createOrder (om : OrderManager) (symbolId : ℤ) (side : Side)
    (price quantity : ℚ) : ℤ × OrderManager :=
  if om.poolFree = 0 then
    (-1, om)
  else
    (om.nextOrderId,
      { orders :=
          (om.nextOrderId, Order.make om.nextOrderId symbolId side price quantity) ::
            om.orders,
        nextOrderId := om.nextOrderId + 1,
        poolFree := om.poolFree - 1 })

/-- Embeds `OrderManager::updateOrderState`: unconditional manual state overwrite. -/
def updateOrderState (om : OrderManager) (orderId : ℤ) (newState : OrderState) :
    OrderManager :=
  match getOrder om orderId with
  | none => om
  | some _ => setOrderIn om orderId (fun o => { o with state := newState })

/-- Embeds `OrderManager::onFill`: add the fill quantity; mark `Filled` when the total
reaches the order quantity (the price is only logged). -/
def onFill (om : OrderManager) (orderId : ℤ) (fillQty fillPrice : ℚ) : OrderManager :=
  match getOrder om orderId with
  | none => om
  | some _ =>
      setOrderIn om orderId (fun o =>
        if o.quantity ≤ o.filledQuantity + fillQty then
          { o with filledQuantity := o.filledQuantity + fillQty,
                   state := OrderState.Filled }
        else
          { o with filledQuantity := o.filledQuantity + fillQty })

/-- Embeds `OrderManager::onExecutionReport`: the core OMS switch on `exec_type`.
An unknown order id is logged and ignored. -/
def onExecutionReport (om : OrderManager) (report : ExecutionReport) : OrderManager :=
  match getOrder om report.orderId with
  | none => om
  | some _ =>
      setOrderIn om report.orderId (fun order =>
        match report.execType with
        | ExecType.New => { order with state := OrderState.New }
        | ExecType.PartialFill =>
            { order with filledQuantity := report.cumQty, state := report.orderState }
        | ExecType.Fill =>
            { order with filledQuantity := report.cumQty, state := report.orderState }
        | ExecType.Canceled => { order with state := OrderState.Canceled }
        | ExecType.Rejected => { order with state := OrderState.Rejected }
        | _ => order)

/-- A full `Fill` report for order 1 (`cum_qty = 2`, resulting state `Filled`). -/
def fillReport1 : ExecutionReport :=
  { orderId := 1, clientOrderId := "", execId := "", symbol := "BTCUSDT",
    side := Side.Buy, lastQty := 2, lastPrice := 20000, leavesQty := 0,
    cumQty := 2, avgPrice := 20000, execType := ExecType.Fill,
    orderState := OrderState.Filled, text := "" }

/-- A later `Fill` report for the same order id with different contents. -/
def lateReport1 : ExecutionReport :=
  { orderId := 1, clientOrderId := "", execId := "", symbol := "BTCUSDT",
    side := Side.Buy, lastQty := 3, lastPrice := 20000, leavesQty := 0,
    cumQty := 5, avgPrice := 20000, execType := ExecType.Fill,
    orderState := OrderState.PendingNew, text := "" }

/-- Order 1 (quantity 2) after its terminal `Fill` report. -/
def omAfterFill : OrderManager :=
  onExecutionReport (createOrder OrderManager.init 0 Side.Buy 20000 2).2 fillReport1

/-- The same registry after the later report for the already-filled order 1. -/
def omAfterLate : OrderManager :=
  onExecutionReport omAfterFill lateReport1

/-- C1: the code has no terminal-state guard. Order 1 (quantity 2) reaches the
terminal state `Filled` with `filled_quantity = 2`; a further `Fill` report with
`cum_qty = 5` and `order_state = PendingNew` is *not* ignored: it overwrites
`filled_quantity` to 5 and moves the state back to the non-terminal
`PendingNew`; likewise `updateOrderState` overwrites a terminal state
unconditionally. This contradicts the claimed terminal-state invariant. -/
theorem orderManager_terminal_overwritten :
    (getOrder omAfterFill 1).map Order.state = some OrderState.Filled ∧
    (getOrder omAfterFill 1).map Order.filledQuantity = some 2 ∧
    (getOrder omAfterLate 1).map Order.state = some OrderState.PendingNew ∧
    (getOrder omAfterLate 1).map Order.filledQuantity = some 5 ∧
    (getOrder (updateOrderState omAfterFill 1 OrderState.New) 1).map Order.state =
      some OrderState.New := by
  refine ⟨rfl, rfl, rfl, rfl, rfl⟩

/-- The OrderManager calls of C3: order creation, an execution report, a manual
fill. -/
inductive OMEvent
  | create (symbolId : ℤ) (side : Side) (price quantity : ℚ)
  | report (r : ExecutionReport)
  | fill (orderId : ℤ) (fillQty fillPrice : ℚ)

/-- Apply one call to the order manager (discarding the returned id). -/
def applyEvent (om : OrderManager) : OMEvent → OrderManager
  | OMEvent.create symbolId side price quantity =>
      (createOrder om symbolId side price quantity).2
  | OMEvent.report r => onExecutionReport om r
  | OMEvent.fill orderId fillQty fillPrice => onFill om orderId fillQty fillPrice

/-- Apply a sequence of calls. -/
def applyEvents (om : OrderManager) : List OMEvent → OrderManager
  | [] => om
  | e :: es => applyEvents (applyEvent om e) es

/-- Well-formedness of one call against the current registry: creations have
nonnegative quantity; a `PartialFill`/`Fill` report carries `cum_qty` within
`[0, quantity]` of the reported order; a manual fill is nonnegative and does
not push the order past its quantity. -/
def wfEvent (om : OrderManager) : OMEvent → Prop
  | OMEvent.create _ _ _ quantity => 0 ≤ quantity
  | OMEvent.report r =>
      ∀ o : Order, (r.orderId, o) ∈ om.orders →
        (r.execType = ExecType.PartialFill ∨ r.execType = ExecType.Fill) →
        0 ≤ r.cumQty ∧ r.cumQty ≤ o.quantity
  | OMEvent.fill orderId fillQty _ =>
      ∀ o : Order, (orderId, o) ∈ om.orders →
        0 ≤ fillQty ∧ o.filledQuantity + fillQty ≤ o.quantity

/-- Well-formedness of a call trace, each call judged at its pre-state. -/
def wfTrace : OrderManager → List OMEvent → Prop
  | _, [] => True
  | om, e :: es => wfEvent om e ∧ wfTrace (applyEvent om e) es

/-- The C3 invariant: every tracked order has `0 ≤ filled_quantity ≤ quantity`. -/
def FilledInv (om : OrderManager) : Prop :=
  ∀ p ∈ om.orders, 0 ≤ p.2.filledQuantity ∧ p.2.filledQuantity ≤ p.2.quantity

theorem filledInv_setOrderIn (om : OrderManager) (id : ℤ) (f : Order → Order)
    (hInv : FilledInv om)
    (hf : ∀ o : Order, (id, o) ∈ om.orders →
      0 ≤ (f o).filledQuantity ∧ (f o).filledQuantity ≤ (f o).quantity) :
    FilledInv (setOrderIn om id f) := by
  intro p' hp'
  rw [setOrderIn] at hp'
  obtain ⟨⟨k, o⟩, hp, rfl⟩ := List.mem_map.mp hp'
  dsimp only
  by_cases hid : k = id
  · rw [if_pos hid]
    subst hid
    exact hf o hp
  · rw [if_neg hid]
    exact hInv ⟨k, o⟩ hp

theorem filledInv_applyEvent {om : OrderManager} {e : OMEvent}
    (hInv : FilledInv om) (hwf : wfEvent om e) : FilledInv (applyEvent om e) := by
  cases e with
  | create symbolId side price quantity =>
      show FilledInv (createOrder om symbolId side price quantity).2
      rw [createOrder]
      by_cases hpool : om.poolFree = 0
      · rw [if_pos hpool]
        exact hInv
      · rw [if_neg hpool]
        intro p hp
        rcases List.mem_cons.mp hp with hp' | hp'
        · rw [hp']
          exact ⟨le_refl 0, hwf⟩
        · exact hInv p hp'
  | report r =>
      show FilledInv (onExecutionReport om r)
      rw [onExecutionReport]
      cases hfind : getOrder om r.orderId with
      | none => exact hInv
      | some o₀ =>
          refine filledInv_setOrderIn om r.orderId _ hInv ?_
          intro o ho
          cases hex : r.execType
          case New => exact hInv ⟨r.orderId, o⟩ ho
          case PartialFill => exact hwf o ho (Or.inl hex)
          case Fill => exact hwf o ho (Or.inr hex)
          case Canceled => exact hInv ⟨r.orderId, o⟩ ho
          case Rejected => exact hInv ⟨r.orderId, o⟩ ho
          case PendingCancel => exact hInv ⟨r.orderId, o⟩ ho
          case PendingNew => exact hInv ⟨r.orderId, o⟩ ho
  | fill orderId fillQty fillPrice =>
      show FilledInv (onFill om orderId fillQty fillPrice)
      rw [onFill]
      cases hfind : getOrder om orderId with
      | none => exact hInv
      | some o₀ =>
          refine filledInv_setOrderIn om orderId _ hInv ?_
          intro o ho
          obtain ⟨hq0, hqle⟩ := hwf o ho
          obtain ⟨hf0, _⟩ := hInv ⟨orderId, o⟩ ho
          by_cases hcap : o.quantity ≤ o.filledQuantity + fillQty
          · rw [if_pos hcap]
            exact ⟨add_nonneg hf0 hq0, hqle⟩
          · rw [if_neg hcap]
            exact ⟨add_nonneg hf0 hq0, hqle⟩

theorem filledInv_applyEvents (es : List OMEvent) : ∀ om : OrderManager,
    FilledInv om → wfTrace om es → FilledInv (applyEvents om es) := by
  induction es with
  | nil => intro om hInv _; exact hInv
  | cons e es ih =>
      intro om hInv hwf
      exact ih (applyEvent om e) (filledInv_applyEvent hInv hwf.1) hwf.2

/-- C3 (amended): starting from any registry satisfying the bounds (in
particular the constructed, empty one), every *well-formed* sequence of
`createOrder` / `onExecutionReport` / `onFill` calls — nonnegative created
quantities, `cum_qty` of applied fill reports within `[0, quantity]`, manual
fills nonnegative and not overshooting — keeps `0 ≤ filled_quantity ≤ quantity`
for every tracked order. (With arbitrary report contents the bound fails; see
the counterexample.) -/
theorem orderManager_filled_bounds_spec (om : OrderManager) (es : List OMEvent)
    (hInv : FilledInv om) (hwf : wfTrace om es) :
    FilledInv (applyEvents om es) ∧ FilledInv OrderManager.init :=
  ⟨filledInv_applyEvents es om hInv hwf,
    fun p hp => absurd hp (List.not_mem_nil p)⟩

/-- C3 witness: the amended invariant run on a creation followed by an exact
fill report from the fresh registry. -/
theorem orderManager_filled_bounds_spec_witness :
    FilledInv (applyEvents OrderManager.init
      [OMEvent.create 0 Side.Buy 20000 2, OMEvent.report fillReport1]) ∧
    FilledInv OrderManager.init :=
  orderManager_filled_bounds_spec OrderManager.init
    [OMEvent.create 0 Side.Buy 20000 2, OMEvent.report fillReport1]
    (fun p hp => absurd hp (List.not_mem_nil p))
    (by
      refine ⟨by norm_num [wfEvent], ?_, trivial⟩
      intro o ho
      intro _
      have ho' : o = Order.make 1 0 Side.Buy 20000 2 := by
        simp only [applyEvent, createOrder, OrderManager.init] at ho
        norm_num [fillReport1] at ho
        exact ho
      rw [ho']
      norm_num [fillReport1, Order.make])

/-- The registry after `createOrder(qty 2)` and a manual `onFill` of 5. -/
def omOverfill : OrderManager :=
  onFill (createOrder OrderManager.init 0 Side.Buy 20000 2).2 1 5 10

/-- The single order tracked by `omOverfill`: quantity 2 but filled 5. -/
def overfillOrder : Order :=
  { orderId := 1, symbolId := 0, side := Side.Buy, price := 20000,
    quantity := 2, filledQuantity := 5, state := OrderState.Filled }

/-- C3 counterexample: with arbitrary call contents the bound fails — a manual
fill of 5 against an order of quantity 2 leaves `filled_quantity = 5 > 2`, so
`0 ≤ filled_quantity ≤ quantity` does not hold for every tracked order. -/
theorem orderManager_filled_bounds_counterexample :
    (getOrder omOverfill 1).map Order.quantity = some 2 ∧
    (getOrder omOverfill 1).map Order.filledQuantity = some 5 ∧
    ¬ FilledInv omOverfill := by
  have homs : omOverfill.orders = [(1, overfillOrder)] := by
    norm_num [omOverfill, onFill, createOrder, OrderManager.init, getOrder,
      setOrderIn, Order.make, List.find?, overfillOrder]
  refine ⟨?_, ?_, ?_⟩
  · rw [getOrder, homs]
    rfl
  · rw [getOrder, homs]
    rfl
  · intro h
    have hord := h (1, overfillOrder) (by rw [homs]; exact List.mem_singleton_self _)
    norm_num [overfillOrder] at hord

/-! ### LockFreeQueue.hpp

The SPSC ring buffer.  The sequential state (slot array plus the two atomic
indices' values) is embedded directly; push/pop are the producer's and
consumer's operations.  The cross-thread release/acquire protocol itself is a
memory-model property outside a sequential embedding; the claims proved here
are the functional contract (capacity `N-1`, empty test, FIFO order). -/

/-- Embeds `LockFreeQueue<T, Capacity>` state. -/
structure LockFreeQueue (T : Type) (Capacity : ℕ) where
  buffer : ℕ → T
  head : ℕ
  tail : ℕ

/-- Embeds `LockFreeQueue::push`: returns `false` (Full) or writes the slot at `tail`
and publishes `(tail + 1) & (Capacity - 1)`. -/
def push {T : Type} {Capacity : ℕ} (q : LockFreeQueue T Capacity) (item : T) :
    Bool × LockFreeQueue T Capacity :=
  let current_tail := q.tail
  let next_tail := (current_tail + 1) &&& (Capacity - 1)
  let current_head := q.head
  if next_tail = current_head then
    (false, q)
  else
    (true, { q with buffer := Function.update q.buffer current_tail item,
                    tail := next_tail })

/-- Embeds `LockFreeQueue::pop`: returns `none` (Empty) or the slot at `head`,
publishing `(head + 1) & (Capacity - 1)` (the C++ out-parameter becomes an
`Option`). -/
def pop {T : Type} {Capacity : ℕ} (q : LockFreeQueue T Capacity) :
    Option T × LockFreeQueue T Capacity :=
  let current_head := q.head
  let current_tail := q.tail
  if current_head = current_tail then
    (none, q)
  else
    (some (q.buffer current_head),
      { q with head := (current_head + 1) &&& (Capacity - 1) })

/-- Number of items currently buffered (distance from `head` to `tail`). -/
def buffered {T : Type} {Capacity : ℕ} (q : LockFreeQueue T Capacity) : ℕ :=
  (q.tail + Capacity - q.head) % Capacity

/-- The buffered items in FIFO order, oldest first. -/
def contents {T : Type} {Capacity : ℕ} (q : LockFreeQueue T Capacity) : List T :=
  (List.range (buffered q)).map (fun i => q.buffer ((q.head + i) % Capacity))

theorem mod_small_cases (a C : ℕ) (hC0 : 0 < C) (ha : a < 2 * C) :
    a % C = if a < C then a else a - C := by
  split_ifs with h
  · exact Nat.mod_eq_of_lt h
  · rw [Nat.mod_eq_sub_mod (by omega)]
    exact Nat.mod_eq_of_lt (by omega)

theorem push_eq {T : Type} {k : ℕ} (q : LockFreeQueue T (2 ^ k)) (x : T) :
    push q x = if (q.tail + 1) % 2 ^ k = q.head then (false, q)
      else (true, { q with buffer := Function.update q.buffer q.tail x,
                           tail := (q.tail + 1) % 2 ^ k }) := by
  simp only [push, Nat.and_pow_two_sub_one_eq_mod]

theorem pop_eq {T : Type} {k : ℕ} (q : LockFreeQueue T (2 ^ k)) :
    pop q = if q.head = q.tail then (none, q)
      else (some (q.buffer q.head),
        { q with head := (q.head + 1) % 2 ^ k }) := by
  simp only [pop, Nat.and_pow_two_sub_one_eq_mod]

theorem buffered_cases {T : Type} {k : ℕ} (q : LockFreeQueue T (2 ^ k))
    (hh : q.head < 2 ^ k) (ht : q.tail < 2 ^ k) :
    buffered q = if q.tail + 2 ^ k - q.head < 2 ^ k then q.tail + 2 ^ k - q.head
      else q.tail + 2 ^ k - q.head - 2 ^ k := by
  have hC0 : 0 < 2 ^ k := Nat.pos_pow_of_pos k (by norm_num)
  rw [buffered]
  exact mod_small_cases _ _ hC0 (by omega)

theorem queue_push_full_iff {T : Type} {k : ℕ} (q : LockFreeQueue T (2 ^ k)) (x : T)
    (hh : q.head < 2 ^ k) (ht : q.tail < 2 ^ k) :
    (push q x).1 = false ↔ buffered q = 2 ^ k - 1 := by
  have hC0 : 0 < 2 ^ k := Nat.pos_pow_of_pos k (by norm_num)
  rw [push_eq]
  by_cases hcond : (q.tail + 1) % 2 ^ k = q.head
  · rw [if_pos hcond]
    rw [mod_small_cases _ _ hC0 (by omega)] at hcond
    have hbuf : buffered q = 2 ^ k - 1 := by
      rw [buffered_cases q hh ht]
      split_ifs at hcond ⊢ <;> omega
    simp [hbuf]
  · rw [if_neg hcond]
    rw [mod_small_cases _ _ hC0 (by omega)] at hcond
    have hbuf : buffered q ≠ 2 ^ k - 1 := by
      rw [buffered_cases q hh ht]
      split_ifs at hcond ⊢ <;> omega
    simp [hbuf]

theorem queue_pop_empty_iff {T : Type} {k : ℕ} (q : LockFreeQueue T (2 ^ k))
    (hh : q.head < 2 ^ k) (ht : q.tail < 2 ^ k) :
    (pop q).1 = none ↔ buffered q = 0 := by
  have hC0 : 0 < 2 ^ k := Nat.pos_pow_of_pos k (by norm_num)
  rw [pop_eq]
  by_cases hcond : q.head = q.tail
  · rw [if_pos hcond]
    have hbuf : buffered q = 0 := by
      rw [buffered_cases q hh ht]
      split_ifs <;> omega
    simp [hbuf]
  · rw [if_neg hcond]
    have hbuf : buffered q ≠ 0 := by
      rw [buffered_cases q hh ht]
      split_ifs <;> omega
    simp [hbuf]

theorem queue_push_contents {T : Type} {k : ℕ} (q : LockFreeQueue T (2 ^ k)) (x : T)
    (hh : q.head < 2 ^ k) (ht : q.tail < 2 ^ k)
    (hnf : buffered q < 2 ^ k - 1) :
    (push q x).1 = true ∧ contents (push q x).2 = contents q ++ [x] := by
  have hC0 : 0 < 2 ^ k := Nat.pos_pow_of_pos k (by norm_num)
  have hnf' := hnf
  rw [buffered_cases q hh ht] at hnf'
  have hcond : ¬ (q.tail + 1) % 2 ^ k = q.head := by
    rw [mod_small_cases _ _ hC0 (by omega)]
    split_ifs at hnf' ⊢ <;> omega
  have hps : push q x = (true,
      { q with buffer := Function.update q.buffer q.tail x,
               tail := (q.tail + 1) % 2 ^ k }) := by
    rw [push_eq, if_neg hcond]
  have hps1 : (push q x).1 = true := by rw [hps]
  have hps2 : (push q x).2 =
      { q with buffer := Function.update q.buffer q.tail x,
               tail := (q.tail + 1) % 2 ^ k } := by rw [hps]
  refine ⟨hps1, ?_⟩
  rw [hps2]
  have hb' : buffered
      ({ q with buffer := Function.update q.buffer q.tail x,
                tail := (q.tail + 1) % 2 ^ k } : LockFreeQueue T (2 ^ k)) =
      buffered q + 1 := by
    show ((q.tail + 1) % 2 ^ k + 2 ^ k - q.head) % 2 ^ k = buffered q + 1
    by_cases h1 : q.tail + 1 < 2 ^ k
    · rw [Nat.mod_eq_of_lt h1, mod_small_cases _ _ hC0 (by omega),
        buffered_cases q hh ht]
      split_ifs at hnf' ⊢ <;> omega
    · have ht1 : q.tail + 1 = 2 ^ k := by omega
      rw [ht1, Nat.mod_self, Nat.zero_add, mod_small_cases _ _ hC0 (by omega),
        buffered_cases q hh ht]
      split_ifs at hnf' ⊢ <;> omega
  rw [contents, hb', List.range_succ, List.map_append]
  congr 1
  · rw [contents]
    refine List.map_congr_left ?_
    intro i hi
    have hi' : i < buffered q := List.mem_range.mp hi
    show Function.update q.buffer q.tail x ((q.head + i) % 2 ^ k) =
      q.buffer ((q.head + i) % 2 ^ k)
    apply Function.update_noteq
    have hi2 := hi'
    rw [buffered_cases q hh ht] at hi2
    rw [mod_small_cases _ _ hC0 (by omega)]
    split_ifs at hi2 ⊢ <;> omega
  · simp only [List.map_cons, List.map_nil]
    have hidx : (q.head + buffered q) % 2 ^ k = q.tail := by
      rw [buffered_cases q hh ht]
      split_ifs with hcase
      · have h2 : q.head + (q.tail + 2 ^ k - q.head) = q.tail + 2 ^ k := by omega
        rw [h2, mod_small_cases _ _ hC0 (by omega), if_neg (by omega)]
        omega
      · have h2 : q.head + (q.tail + 2 ^ k - q.head - 2 ^ k) = q.tail := by omega
        rw [h2]
        exact Nat.mod_eq_of_lt ht
    show [Function.update q.buffer q.tail x ((q.head + buffered q) % 2 ^ k)] = [x]
    rw [hidx, Function.update_same]

theorem queue_pop_contents {T : Type} {k : ℕ} (q : LockFreeQueue T (2 ^ k))
    (hh : q.head < 2 ^ k) (ht : q.tail < 2 ^ k) (v : T) (rest : List T)
    (hcont : contents q = v :: rest) :
    (pop q).1 = some v ∧ contents (pop q).2 = rest := by
  have hC0 : 0 < 2 ^ k := Nat.pos_pow_of_pos k (by norm_num)
  have hbne : buffered q ≠ 0 := by
    intro h0
    rw [contents, h0] at hcont
    cases hcont
  have hcondne : ¬ q.head = q.tail := by
    intro heq
    apply hbne
    rw [buffered_cases q hh ht]
    split_ifs <;> omega
  have hps : pop q = (some (q.buffer q.head),
      { q with head := (q.head + 1) % 2 ^ k }) := by
    rw [pop_eq, if_neg hcondne]
  obtain ⟨m, hm⟩ : ∃ m, buffered q = m + 1 := ⟨buffered q - 1, by omega⟩
  rw [contents, hm, List.range_succ_eq_map, List.map_cons, List.map_map] at hcont
  have hv : q.buffer ((q.head + 0) % 2 ^ k) = v := (List.cons_eq_cons.mp hcont).1
  have hrest := (List.cons_eq_cons.mp hcont).2
  have hh0 : (q.head + 0) % 2 ^ k = q.head := by
    rw [Nat.add_zero]
    exact Nat.mod_eq_of_lt hh
  rw [hh0] at hv
  refine ⟨?_, ?_⟩
  · rw [hps, hv]
  · rw [hps]
    have hm' := hm
    rw [buffered_cases q hh ht] at hm'
    have hb' : buffered ({ q with head := (q.head + 1) % 2 ^ k } :
        LockFreeQueue T (2 ^ k)) = m := by
      show (q.tail + 2 ^ k - (q.head + 1) % 2 ^ k) % 2 ^ k = m
      by_cases h1 : q.head + 1 < 2 ^ k
      · rw [Nat.mod_eq_of_lt h1, mod_small_cases _ _ hC0 (by omega)]
        split_ifs at hm' ⊢ <;> omega
      · have hh1 : q.head + 1 = 2 ^ k := by omega
        rw [hh1, Nat.mod_self, Nat.sub_zero, mod_small_cases _ _ hC0 (by omega)]
        split_ifs at hm' ⊢ <;> omega
    rw [contents, hb', ← hrest]
    refine List.map_congr_left ?_
    intro i _
    show q.buffer (((q.head + 1) % 2 ^ k + i) % 2 ^ k) = q.buffer ((q.head + i.succ) % 2 ^ k)
    apply congrArg
    rw [Nat.mod_add_mod]
    congr 1
    omega

/-- The freshly constructed capacity-4 queue of scenario S1 (`ℤ` payload,
zero-initialised slots, `head_ = tail_ = 0`). -/
def s1Queue : LockFreeQueue ℤ 4 :=
  { buffer := fun _ => 0, head := 0, tail := 0 }

/-- Producer side of scenario S1: push a list of items in order. -/
def pushAll (q : LockFreeQueue ℤ 4) : List ℤ → List Bool × LockFreeQueue ℤ 4
  | [] => ([], q)
  | x :: xs =>
      let r := push q x
      let rest := pushAll r.2 xs
      (r.1 :: rest.1, rest.2)

/-- Consumer side of scenario S1: pop `n` times. -/
def popN (q : LockFreeQueue ℤ 4) : ℕ → List (Option ℤ) × LockFreeQueue ℤ 4
  | 0 => ([], q)
  | n + 1 =>
      let r := pop q
      let rest := popN r.2 n
      (r.1 :: rest.1, rest.2)

/-- S1 state after pushing 1, 2, 3. -/
def s1A : LockFreeQueue ℤ 4 := (pushAll s1Queue [1, 2, 3]).2

/-- S1 state after then popping four times. -/
def s1B : LockFreeQueue ℤ 4 := (popN s1A 4).2

/-- S1 state after then pushing 4, 5, 6, 7 (the last push drops). -/
def s1C : LockFreeQueue ℤ 4 := (pushAll s1B [4, 5, 6, 7]).2

/-- C4: for the power-of-two-capacity SPSC ring buffer, `push` returns Full
exactly when `N-1` items are buffered (usable capacity `N-1`), `pop` returns
Empty exactly when none are, and the buffer is FIFO: a non-full `push` appends
to the buffered contents and a non-empty `pop` removes and returns their head.
Concretely with `N = 4`: pushes 1,2,3 succeed; pops yield 1,2,3 then Empty;
pushes 4,5,6,7 succeed except the 4th which reports Full; pops yield 4,5,6
then Empty. -/
theorem lockFreeQueue_spec :
    (∀ (T : Type) (k : ℕ) (q : LockFreeQueue T (2 ^ k)) (x : T),
      q.head < 2 ^ k → q.tail < 2 ^ k →
      (((push q x).1 = false ↔ buffered q = 2 ^ k - 1) ∧
       ((pop q).1 = none ↔ buffered q = 0) ∧
       (buffered q < 2 ^ k - 1 →
         (push q x).1 = true ∧ contents (push q x).2 = contents q ++ [x]) ∧
       (∀ (v : T) (rest : List T), contents q = v :: rest →
         (pop q).1 = some v ∧ contents (pop q).2 = rest))) ∧
    ((pushAll s1Queue [1, 2, 3]).1 = [true, true, true] ∧
     (popN s1A 4).1 = [some 1, some 2, some 3, none] ∧
     (pushAll s1B [4, 5, 6, 7]).1 = [true, true, true, false] ∧
     (popN s1C 4).1 = [some 4, some 5, some 6, none]) := by
  refine ⟨?_, by decide, by decide, by decide, by decide⟩
  intro T k q x hh ht
  exact ⟨queue_push_full_iff q x hh ht, queue_pop_empty_iff q hh ht,
    fun hnf => queue_push_contents q x hh ht hnf,
    fun v rest hc => queue_pop_contents q hh ht v rest hc⟩

/-- C4 witness: the general contract evaluated on concrete capacity-4 queues
(the full one after pushing 1,2,3, and the fresh empty one). -/
theorem lockFreeQueue_spec_witness :
    s1A.head < 2 ^ 2 ∧ s1A.tail < 2 ^ 2 ∧
    (((push s1A (9 : ℤ)).1 = false ↔ buffered s1A = 2 ^ 2 - 1) ∧
      ((pop s1Queue).1 = none ↔ buffered s1Queue = 0)) ∧
    ((push s1Queue (1 : ℤ)).1 = true ∧
      contents (push s1Queue (1 : ℤ)).2 = contents s1Queue ++ [(1 : ℤ)]) ∧
    ((pop s1A).1 = some 1 ∧ contents (pop s1A).2 = [2, 3]) :=
  ⟨by decide, by decide,
    ⟨(lockFreeQueue_spec.1 ℤ 2 s1A 9 (by decide) (by decide)).1,
     (lockFreeQueue_spec.1 ℤ 2 s1Queue 9 (by decide) (by decide)).2.1⟩,
    (lockFreeQueue_spec.1 ℤ 2 s1Queue 1 (by decide) (by decide)).2.2.1 (by decide),
    (lockFreeQueue_spec.1 ℤ 2 s1A 9 (by decide) (by decide)).2.2.2 1 [2, 3] (by decide)⟩

/-! ### MarketDataAdapter.hpp and Strategy.hpp

The strategy engine and its collaborators, as wired by the `Strategy`
constructor.  `OrderGateway::sendOrder` returns immediately and only queues a
simulated asynchronous fill; its observable per-tick effect is the send
itself, recorded in a sent-order log.  The `steady_clock` read inside the
risk check is the explicit `now` input, as in the risk-gate embedding. -/

/-- Embeds `struct BookTicker`. -/
structure BookTicker where
  symbol : String
  best_bid_price : ℚ
  best_bid_qty : ℚ
  best_ask_price : ℚ
  best_ask_qty : ℚ
  update_id : ℤ

/-- Modelled from the spec: `best_bid_qty()` — the quantity resting at the best
bid (0 when the side is empty).  `Strategy.hpp` calls this accessor but it is
missing from the repository's `OrderBook.hpp` (§9 of the spec notes divergent
duplicate headers); §4.4 lists it among the book's operations. -/
def getBestBidQty (b : OrderBook) : ℚ :=
  (sideLookup b.bids (sideMaxKey b.bids)).getD 0

/-- Modelled from the spec: `best_ask_qty()` — the quantity resting at the best
ask (0 when the side is empty); missing from `OrderBook.hpp` like
`best_bid_qty()`. -/
def getBestAskQty (b : OrderBook) : ℚ :=
  (sideLookup b.asks (sideMinKey b.asks)).getD 0

/-- One `OrderGateway::sendOrder` call. -/
structure SentOrder where
  symbol : String
  side : Side
  price : ℚ
  quantity : ℚ
  type : OrderType
  orderId : ℤ

/-- Embeds `class Strategy` state with its collaborators: the interner singleton, the
three pre-computed symbol ids, the per-symbol books, the risk manager, the
order manager, the gateway's sent-order log, and the one-shot `tradeExecuted_`
demo flag. -/
structure Strategy where
  symbols : SymbolManager
  btcUsdtId : ℤ
  ethBtcId : ℤ
  ethUsdtId : ℤ
  orderBooks : List (ℤ × OrderBook)
  risk : RiskManager
  om : OrderManager
  sent : List SentOrder
  tradeExecuted : Bool

/-- The `Strategy` constructor: intern the three symbols, create their books,
`tradeExecuted_{false}`. -/
def Strategy.construct (symbols0 : SymbolManager) (risk : RiskManager)
    (om : OrderManager) : Strategy :=
  let r1 := getId symbols0 "BTCUSDT"
  let r2 := getId r1.2 "ETHBTC"
  let r3 := getId r2.2 "ETHUSDT"
  { symbols := r3.2, btcUsdtId := r1.1, ethBtcId := r2.1, ethUsdtId := r3.1,
    orderBooks := [(r1.1, OrderBook.empty), (r2.1, OrderBook.empty),
      (r3.1, OrderBook.empty)],
    risk := risk, om := om, sent := [], tradeExecuted := false }

/-- Embeds `orderBooks_.find(symId)`. -/
def findBook (st : Strategy) (symId : ℤ) : Option OrderBook :=
  (st.orderBooks.find? (fun p => p.1 = symId)).map Prod.snd

/-- Write back the (mutated-in-place) book for `symId`. -/
def setBook (st : Strategy) (symId : ℤ) (b : OrderBook) : Strategy :=
  { st with orderBooks :=
      st.orderBooks.map (fun p => if p.1 = symId then (p.1, b) else p) }

/-- Embeds `orderBooks_.count(symId)`. -/
def hasBook (st : Strategy) (symId : ℤ) : Bool :=
  st.orderBooks.any (fun p => p.1 = symId)

/-- Embeds `orderBooks_.at(symId)` (total: every call site is guarded by
`count`/identity, so the default is never read on those paths). -/
def bookAt (st : Strategy) (symId : ℤ) : OrderBook :=
  (findBook st symId).getD OrderBook.empty

/-- Embeds `Strategy::executeArbitrage`: risk-check leg 1 (Buy BTC/USDT at `price1`,
size 0.001, reference = current BTC/USDT best ask); on approval create the
order, send it, and update the risk position (legs 2 and 3 are omitted in the
source). -/
def executeArbitrage (st : Strategy) (price1 price2 price3 : ℚ) (now : ℤ) :
    Strategy :=
  let qty : ℚ := 1 / 1000
  let check := checkOrder st.risk Side.Buy price1 qty
    (getBestAsk (bookAt st st.btcUsdtId)) now
  if check.1 = RiskResult.Approved then
    let created := createOrder st.om st.btcUsdtId Side.Buy price1 qty
    { st with risk := updatePosition check.2 Side.Buy qty,
              om := created.2,
              sent := st.sent ++
                [{ symbol := "BTCUSDT", side := Side.Buy, price := price1,
                   quantity := qty, type := OrderType.Market,
                   orderId := created.1 }] }
  else
    { st with risk := check.2 }

/-- Embeds `Strategy::checkAlphaSignal`: the order-book-imbalance signal on BTC/USDT
(crossing Buy of size 0.01 at the best ask when imbalance exceeds 0.8). -/
def checkAlphaSignal (st : Strategy) (symId : ℤ) (now : ℤ) : Strategy :=
  if symId ≠ st.btcUsdtId then st
  else
    let book := bookAt st symId
    let bidQty := getBestBidQty book
    let askQty := getBestAskQty book
    let totalQty := bidQty + askQty
    if totalQty ≤ 0 then st
    else
      let imbalance := (bidQty - askQty) / totalQty
      if 8 / 10 < imbalance then
        let price := getBestAsk book
        let qty : ℚ := 1 / 100
        let check := checkOrder st.risk Side.Buy price qty (getBestAsk book) now
        if check.1 = RiskResult.Approved then
          let created := createOrder st.om st.btcUsdtId Side.Buy price qty
          { st with risk := updatePosition check.2 Side.Buy qty,
                    om := created.2,
                    sent := st.sent ++
                      [{ symbol := "BTCUSDT", side := Side.Buy, price := price,
                         quantity := qty, type := OrderType.Market,
                         orderId := created.1 }] }
        else
          { st with risk := check.2 }
      else st

/-- Step 3 of `Strategy::onMarketData` ("Strategy Logic: Triangular
Arbitrage"): when all three books exist and the three quotes are positive,
compute the cycle profit over 100 USDT and — when it exceeds 0.3 **or no trade
has been executed yet** (the demo clause) — run `executeArbitrage` and set
`tradeExecuted_`. -/
def arbitrageStage (st1 : Strategy) (now : ℤ) : Strategy :=
  if hasBook st1 st1.btcUsdtId && hasBook st1 st1.ethBtcId &&
      hasBook st1 st1.ethUsdtId then
    let btcUsdtAsk := getBestAsk (bookAt st1 st1.btcUsdtId)
    let ethBtcAsk := getBestAsk (bookAt st1 st1.ethBtcId)
    let ethUsdtBid := getBestBid (bookAt st1 st1.ethUsdtId)
    if 0 < btcUsdtAsk ∧ 0 < ethBtcAsk ∧ 0 < ethUsdtBid then
      let amountUSDT : ℚ := 100
      let btcAmount := amountUSDT / btcUsdtAsk
      let ethAmount := btcAmount / ethBtcAsk
      let endUSDT := ethAmount * ethUsdtBid
      let profit := endUSDT - amountUSDT
      if 3 / 10 < profit ∨ st1.tradeExecuted = false then
        { executeArbitrage st1 btcUsdtAsk ethBtcAsk ethUsdtBid now with
            tradeExecuted := true }
      else st1
    else st1
  else st1

/-- Embeds `Strategy::onMarketData`: intern the symbol, update the book, evaluate the
triangular-arbitrage stage, then the imbalance signal. -/
def onMarketData (st : Strategy) (ticker : BookTicker) (now : ℤ) : Strategy :=
  let r := getId st.symbols ticker.symbol
  let symId := r.1
  let st0 := { st with symbols := r.2 }
  match findBook st0 symId with
  | none => st0
  | some book =>
      let book1 := updateAsk
        (updateBid book ticker.best_bid_price ticker.best_bid_qty)
        ticker.best_ask_price ticker.best_ask_qty
      let st1 := setBook st0 symId book1
      checkAlphaSignal (arbitrageStage st1 now) symId now

/-- Number of leg-1 arbitrage orders (size 0.001) sent so far. -/
def leg1Count (st : Strategy) : ℕ :=
  (st.sent.filter (fun o => o.quantity = 1 / 1000)).length

/-- The conditions under which the arbitrage stage emits its leg-1 order, read
off the code path: all three books exist, the quotes `A = best_ask(BTC/USDT)`,
`B = best_ask(ETH/BTC)`, `C = best_bid(ETH/USDT)` are positive, the profit
`100/A/B·C − 100` exceeds 0.30 **or no trade has been emitted yet** (the demo
clause), and the pre-trade risk check approves leg 1. -/
def arbStageTriggered (st1 : Strategy) (now : ℤ) : Bool :=
  if hasBook st1 st1.btcUsdtId && hasBook st1 st1.ethBtcId &&
      hasBook st1 st1.ethUsdtId then
    let btcUsdtAsk := getBestAsk (bookAt st1 st1.btcUsdtId)
    let ethBtcAsk := getBestAsk (bookAt st1 st1.ethBtcId)
    let ethUsdtBid := getBestBid (bookAt st1 st1.ethUsdtId)
    if 0 < btcUsdtAsk ∧ 0 < ethBtcAsk ∧ 0 < ethUsdtBid then
      let amountUSDT : ℚ := 100
      let btcAmount := amountUSDT / btcUsdtAsk
      let ethAmount := btcAmount / ethBtcAsk
      let endUSDT := ethAmount * ethUsdtBid
      let profit := endUSDT - amountUSDT
      if 3 / 10 < profit ∨ st1.tradeExecuted = false then
        if (checkOrder st1.risk Side.Buy btcUsdtAsk (1 / 1000)
            (getBestAsk (bookAt st1 st1.btcUsdtId)) now).1 =
            RiskResult.Approved then
          true
        else false
      else false
    else false
  else false

/-- The per-tick emission condition for a leg-1 arbitrage order: the tick's
symbol has a book, and after the book update the arbitrage stage fires. -/
def arbTriggered (st : Strategy) (ticker : BookTicker) (now : ℤ) : Bool :=
  let r := getId st.symbols ticker.symbol
  let symId := r.1
  let st0 := { st with symbols := r.2 }
  match findBook st0 symId with
  | none => false
  | some book =>
      let book1 := updateAsk
        (updateBid book ticker.best_bid_price ticker.best_bid_qty)
        ticker.best_ask_price ticker.best_ask_qty
      let st1 := setBook st0 symId book1
      arbStageTriggered st1 now

theorem leg1Count_setBook (st : Strategy) (symId : ℤ) (b : OrderBook) :
    leg1Count (setBook st symId b) = leg1Count st := rfl

theorem leg1Count_symbols (st : Strategy) (s : SymbolManager) :
    leg1Count { st with symbols := s } = leg1Count st := rfl

theorem leg1Count_tradeExecuted (st : Strategy) (b : Bool) :
    leg1Count { st with tradeExecuted := b } = leg1Count st := rfl

theorem leg1Count_checkAlphaSignal (st : Strategy) (symId now : ℤ) :
    leg1Count (checkAlphaSignal st symId now) = leg1Count st := by
  simp only [checkAlphaSignal]
  split_ifs
  · rfl
  · rfl
  · simp only [leg1Count, List.filter_append, List.length_append]
    norm_num [List.filter]
  · rfl
  · rfl

theorem leg1Count_executeArbitrage (st : Strategy) (p1 p2 p3 : ℚ) (now : ℤ) :
    leg1Count (executeArbitrage st p1 p2 p3 now) =
      leg1Count st +
        (if (checkOrder st.risk Side.Buy p1 (1 / 1000)
            (getBestAsk (bookAt st st.btcUsdtId)) now).1 = RiskResult.Approved
          then 1 else 0) := by
  simp only [executeArbitrage]
  split_ifs with h
  · simp only [leg1Count, List.filter_append, List.length_append]
    norm_num [List.filter]
  · simp [leg1Count]

theorem leg1Count_arbitrageStage (st1 : Strategy) (now : ℤ) :
    leg1Count (arbitrageStage st1 now) =
      leg1Count st1 + (if arbStageTriggered st1 now then 1 else 0) := by
  simp only [arbitrageStage, arbStageTriggered]
  by_cases hb : (hasBook st1 st1.btcUsdtId && hasBook st1 st1.ethBtcId &&
      hasBook st1 st1.ethUsdtId) = true
  · rw [if_pos hb, if_pos hb]
    by_cases hpos : 0 < getBestAsk (bookAt st1 st1.btcUsdtId) ∧
        0 < getBestAsk (bookAt st1 st1.ethBtcId) ∧
        0 < getBestBid (bookAt st1 st1.ethUsdtId)
    · rw [if_pos hpos, if_pos hpos]
      by_cases htr : 3 / 10 < 100 / getBestAsk (bookAt st1 st1.btcUsdtId) /
            getBestAsk (bookAt st1 st1.ethBtcId) *
            getBestBid (bookAt st1 st1.ethUsdtId) - 100 ∨
          st1.tradeExecuted = false
      · rw [if_pos htr, if_pos htr, leg1Count_tradeExecuted,
          leg1Count_executeArbitrage]
        by_cases happ : (checkOrder st1.risk Side.Buy
            (getBestAsk (bookAt st1 st1.btcUsdtId)) (1 / 1000)
            (getBestAsk (bookAt st1 st1.btcUsdtId)) now).1 = RiskResult.Approved
        · rw [if_pos happ, if_pos happ]
          simp
        · rw [if_neg happ, if_neg happ]
          simp
      · rw [if_neg htr, if_neg htr]
        simp
    · rw [if_neg hpos, if_neg hpos]
      simp
  · rw [if_neg hb, if_neg hb]
    simp

theorem onMarketData_leg1Count (st : Strategy) (ticker : BookTicker) (now : ℤ) :
    leg1Count (onMarketData st ticker now) =
      leg1Count st + (if arbTriggered st ticker now then 1 else 0) := by
  rw [onMarketData, arbTriggered]
  cases hfind : findBook { st with symbols := (getId st.symbols ticker.symbol).2 }
      (getId st.symbols ticker.symbol).1 with
  | none =>
      dsimp only
      simp [leg1Count_symbols]
  | some book =>
      dsimp only
      rw [leg1Count_checkAlphaSignal, leg1Count_arbitrageStage, leg1Count_setBook,
        leg1Count_symbols]

/-- The constructed strategy after two ticks have set `BTC/USDT` to bid
19990 / ask 20000 and `ETH/BTC` to ask 0.05 (`ETH/USDT` still empty):
fresh risk state, empty order manager, nothing sent, `tradeExecuted_ = false`. -/
def demoPre : Strategy :=
  let st := Strategy.construct SymbolManager.empty (RiskManager.init 0)
    OrderManager.init
  { st with orderBooks := [
      (st.btcUsdtId, updateAsk (updateBid OrderBook.empty 19990 1) 20000 1),
      (st.ethBtcId, updateAsk OrderBook.empty (1 / 20) 1),
      (st.ethUsdtId, OrderBook.empty)] }

/-- The state `demoPre`, written out (the interner holds the three symbols at ids 0–2). -/
theorem demoPre_eq : demoPre =
    { symbols :=
        { nextId := 3,
          symbolToId := [("ETHUSDT", 2), ("ETHBTC", 1), ("BTCUSDT", 0)],
          idToSymbol := ["BTCUSDT", "ETHBTC", "ETHUSDT"] },
      btcUsdtId := 0, ethBtcId := 1, ethUsdtId := 2,
      orderBooks := [(0, { bids := [(19990, 1)], asks := [(20000, 1)] }),
        (1, { bids := [], asks := [(1 / 20, 1)] }),
        (2, { bids := [], asks := [] })],
      risk := RiskManager.init 0, om := OrderManager.init, sent := [],
      tradeExecuted := false } := rfl

/-- An `ETH/USDT` tick with a low bid: the post-update quotes are
`A = 20000`, `B = 0.05`, `C = 20`, giving cycle profit `−98 ≤ 0.30`. -/
def tickEthUsdtLow : BookTicker :=
  { symbol := "ETHUSDT", best_bid_price := 20, best_bid_qty := 1,
    best_ask_price := 21, best_ask_qty := 1, update_id := 3 }

/-- The `ETH/USDT` tick of scenario S3: `C = 1010`, cycle profit `1 > 0.30`. -/
def tickEthUsdtHigh : BookTicker :=
  { symbol := "ETHUSDT", best_bid_price := 1010, best_bid_qty := 1,
    best_ask_price := 1011, best_ask_qty := 1, update_id := 3 }

/-- The state `demoPre` with the demo flag already consumed, so that only genuine
profit (> 0.3) can emit. -/
def demoS3 : Strategy := { demoPre with tradeExecuted := true }

set_option maxHeartbeats 1000000 in
theorem arbTriggered_demoPre_low : arbTriggered demoPre tickEthUsdtLow 0 = true := by
  rw [demoPre_eq]
  norm_num [arbTriggered, arbStageTriggered, getId, registerNew,
    RiskManager.init, OrderManager.init,
    findBook, setBook, hasBook, bookAt, checkOrder, projectedPosition,
    OrderBook.empty, updateBid, updateAsk, sideSet, sideErase, sideLookup,
    sideMaxKey, sideMinKey, getBestAsk, getBestBid, List.find?, List.filter,
    tickEthUsdtLow, abs_of_nonneg, abs_of_nonpos]

set_option maxHeartbeats 1000000 in
theorem arbTriggered_demoS3_high : arbTriggered demoS3 tickEthUsdtHigh 0 = true := by
  rw [show demoS3 = { demoPre with tradeExecuted := true } from rfl, demoPre_eq]
  norm_num [arbTriggered, arbStageTriggered, getId, registerNew,
    RiskManager.init, OrderManager.init,
    findBook, setBook, hasBook, bookAt, checkOrder, projectedPosition,
    OrderBook.empty, updateBid, updateAsk, sideSet, sideErase, sideLookup,
    sideMaxKey, sideMinKey, getBestAsk, getBestBid, List.find?, List.filter,
    tickEthUsdtHigh, abs_of_nonneg, abs_of_nonpos]

/-- C2 counterexample: a tick on which every quote is positive and the cycle
profit is `−98 ≤ 0.30`, yet (because no trade has been emitted yet and the
code forces one demo trade) exactly one leg-1 arbitrage order IS emitted — so
"no order is emitted when profit ≤ 0.30" fails on the code. -/
theorem strategy_forced_trade_counterexample :
    getBestAsk (bookAt demoPre demoPre.btcUsdtId) = 20000 ∧
    getBestAsk (bookAt demoPre demoPre.ethBtcId) = 1 / 20 ∧
    getBestBid (updateAsk (updateBid (bookAt demoPre demoPre.ethUsdtId)
      tickEthUsdtLow.best_bid_price tickEthUsdtLow.best_bid_qty)
      tickEthUsdtLow.best_ask_price tickEthUsdtLow.best_ask_qty) = 20 ∧
    (100 / (20000 : ℚ) / (1 / 20) * 20 - 100 ≤ 3 / 10) ∧
    demoPre.tradeExecuted = false ∧
    leg1Count demoPre = 0 ∧
    leg1Count (onMarketData demoPre tickEthUsdtLow 0) = 1 := by
  have hcount := onMarketData_leg1Count demoPre tickEthUsdtLow 0
  rw [arbTriggered_demoPre_low] at hcount
  refine ⟨?_, ?_, ?_, by norm_num, ?_, ?_, ?_⟩
  · rw [demoPre_eq]
    norm_num [bookAt, findBook, getBestAsk, sideMinKey, List.find?]
  · rw [demoPre_eq]
    norm_num [bookAt, findBook, getBestAsk, sideMinKey, List.find?]
  · rw [demoPre_eq]
    norm_num [bookAt, findBook, getBestBid, getBestAsk, sideMaxKey, sideMinKey,
      updateBid, updateAsk, sideSet, sideErase, List.find?, List.filter,
      tickEthUsdtLow]
  · rw [demoPre_eq]
  · rw [demoPre_eq]
    rfl
  · rw [hcount, demoPre_eq]
    rfl

set_option maxHeartbeats 1000000 in
theorem demoS3_high_sent :
    (onMarketData demoS3 tickEthUsdtHigh 0).sent =
      [{ symbol := "BTCUSDT", side := Side.Buy, price := 20000,
         quantity := 1 / 1000, type := OrderType.Market, orderId := 1 }] := by
  rw [show demoS3 = { demoPre with tradeExecuted := true } from rfl, demoPre_eq]
  norm_num [onMarketData, arbitrageStage, checkAlphaSignal, executeArbitrage,
    getId, registerNew, RiskManager.init, OrderManager.init, createOrder,
    Order.make, updatePosition, findBook, setBook, hasBook, bookAt, checkOrder,
    projectedPosition, OrderBook.empty, updateBid, updateAsk, sideSet, sideErase,
    sideLookup, sideMaxKey, sideMinKey, getBestAsk, getBestBid, List.find?,
    List.filter, tickEthUsdtHigh, abs_of_nonneg, abs_of_nonpos]

/-- C2 (amended): on every tick, a leg-1 arbitrage order (Buy BTC/USDT, size
0.001) is emitted exactly when `arbTriggered` holds — the tick's symbol has a
book and, after the book update, `A = best_ask(BTC/USDT)`,
`B = best_ask(ETH/BTC)`, `C = best_bid(ETH/USDT)` are all positive, the profit
`100/A/B·C − 100` exceeds 0.30 **or the one-shot demo trade has not fired
yet**, and the risk check approves the order — and then exactly one such order
is emitted.  In particular with `A = 20000`, `B = 0.05`, `C = 1010` (profit 1)
and the demo flag consumed, exactly one leg-1 order Buy BTC/USDT at 20000 of
size 0.001 is sent. -/
theorem strategy_leg1_emission_spec :
    (∀ (st : Strategy) (ticker : BookTicker) (now : ℤ),
      leg1Count (onMarketData st ticker now) =
        leg1Count st + (if arbTriggered st ticker now then 1 else 0)) ∧
    (3 / 10 < 100 / (20000 : ℚ) / (1 / 20) * 1010 - 100 ∧
     demoS3.tradeExecuted = true ∧
     leg1Count demoS3 = 0 ∧
     leg1Count (onMarketData demoS3 tickEthUsdtHigh 0) = 1 ∧
     (onMarketData demoS3 tickEthUsdtHigh 0).sent =
       [{ symbol := "BTCUSDT", side := Side.Buy, price := 20000,
          quantity := 1 / 1000, type := OrderType.Market, orderId := 1 }]) := by
  have hcount := onMarketData_leg1Count demoS3 tickEthUsdtHigh 0
  rw [arbTriggered_demoS3_high] at hcount
  refine ⟨onMarketData_leg1Count, by norm_num, rfl, rfl, ?_, demoS3_high_sent⟩
  rw [hcount]
  rfl

end quant
